/-
A verification development for `cronrecon.py`: a shallow embedding of the
crontab field parser (`CronJob.parse`, with its inner `start_parse` and
`finish_parse`) and of the next-run calculator (`CronJob.next_run`, with its
inner passes `set_next_minute`, `set_next_hour`, `set_next_day`,
`set_next_month` and `create_date`), together with theorems settling the
specification claims about them.

Conventions of the embedding:
* Python strings are `List Char`; Python lists of ints are `List Int`.
* Fallible Python code (uncaught `ValueError` / `IndexError` /
  `AssertionError` propagating out of the function) is modelled with
  `Option`: `none` is "the call raised".
* `datetime.datetime` is the structure `PyDateTime` (year, month, day, hour,
  minute, second); `microsecond` is not modelled (no claim mentions it), and
  neither is the library's year-9999 upper bound.  `datetime` arithmetic is
  modelled by explicit calendar successor steps.
-/
import Mathlib

set_option maxRecDepth 100000

/-- Digit accumulator for `pyInt`: consumes decimal digits, `none` on any
non-digit character. -/
def digitsValAux : List Char → Nat → Option Nat
  | [], acc => some acc
  | c :: cs, acc =>
      if c.isDigit then digitsValAux cs (acc * 10 + (c.toNat - 48)) else none

/-- Model of Python `int(s)` on the token strings this program produces: an
optional single sign followed by a nonempty run of decimal digits; anything
else raises `ValueError` (`none`).  (Python `int` additionally tolerates
surrounding whitespace; tokens here come from splitting on spaces and never
carry any.) -/
def pyInt (s : List Char) : Option Int :=
  match s with
  | [] => none
  | c :: rest =>
      if c = '-' then
        if rest = [] then none
        else (digitsValAux rest 0).map (fun (n : Nat) => -(n : Int))
      else if c = '+' then
        if rest = [] then none
        else (digitsValAux rest 0).map (fun (n : Nat) => (n : Int))
      else (digitsValAux (c :: rest) 0).map (fun (n : Nat) => (n : Int))

/-- Model of Python `str.split(sep)` for a one-character separator: always
returns at least one piece, empty pieces included. -/
def splitOnChar (sep : Char) : List Char → List (List Char)
  | [] => [[]]
  | c :: cs =>
      match splitOnChar sep cs with
      | [] => [[]]
      | p :: ps => if c = sep then [] :: p :: ps else (c :: p) :: ps

/-- Elements of `l` at indices `0, k, 2k, …` (Python `l[::k]` for `k > 0`);
`i` is the current index. -/
def everyNthAux (k : Nat) : List α → Nat → List α
  | [], _ => []
  | x :: xs, i =>
      if i % k = 0 then x :: everyNthAux k xs (i + 1) else everyNthAux k xs (i + 1)

def everyNth (l : List α) (k : Nat) : List α := everyNthAux k l 0

/-- Model of Python `l[::freq]` (extended-slice with step only): step `0`
raises `ValueError` (`none`); a negative step walks the reversed list. -/
def pySliceStep (l : List α) (freq : Int) : Option (List α) :=
  if freq = 0 then none
  else if 0 < freq then some (everyNth l freq.toNat)
  else some (everyNth l.reverse (-freq).toNat)

/-- Model of Python `range(a, b)` as a list of `Int` (empty when `b ≤ a`). -/
def pyRange (a b : Int) : List Int :=
  (List.range (b - a).toNat).map (fun (i : Nat) => a + (i : Int))

/-- Model of Python `sorted` on a list of ints.  On a total order the sorted
rearrangement is unique, so any correct sort coincides with CPython's. -/
def pySorted (l : List Int) : List Int := List.insertionSort (· ≤ ·) l

/-- The comma-free branch of `finish_parse` (cronrecon.py lines 61-69): a
dash splits into two bounds giving the inclusive range `[A, B]` (a malformed
bound raises, uncaught); otherwise a plain integer gives a singleton, and a
non-numeric token is logged and silently dropped (empty contribution). -/
def parsePiece (s : List Char) : Option (List Int) :=
  if s.contains '-' then
    match splitOnChar '-' s with
    | a :: b :: _ =>
        match pyInt a, pyInt b with
        | some va, some vb => some (pyRange va (vb + 1))
        | _, _ => none
    | _ => none
  else
    match pyInt s with
    | some v => some [v]
    | none => some []

/-- Resolves the comma pieces left to right, concatenating contributions
(the recursive calls of `finish_parse` on `cron_str.split(',')`,
cronrecon.py lines 58-60); any uncaught error aborts the whole parse. -/
def joinPieces : List (List Char) → Option (List Int)
  | [] => some []
  | p :: ps =>
      match parsePiece p, joinPieces ps with
      | some l, some r => some (l ++ r)
      | _, _ => none

/-- `finish_parse` (cronrecon.py lines 55-69).  A piece produced by the comma
split never contains a comma, so the recursion bottoms out in
`parsePiece`. -/
def finish_parse (s : List Char) : Option (List Int) :=
  if s.contains ',' then joinPieces (splitOnChar ',' s) else parsePiece s

/-- The literal field text `"*"`. -/
def starT : List Char := ['*']

/-- Python `'*/' in field_str`: does the two-character pattern occur
anywhere in the field text? -/
def hasStep : List Char → Bool
  | '*' :: '/' :: _ => true
  | _ :: cs => hasStep cs
  | [] => false

/-- `start_parse` (cronrecon.py lines 71-86): `*` expands to
`range(min, max)`; a field containing `*/` takes `int(field_str[2:])` as the
stride over `range(min, max)[::freq]`; everything else goes through
`finish_parse`.  The result is returned through `sorted`. -/
def start_parse (s : List Char) (min_value max_value : Int) : Option (List Int) :=
  if s = starT then some (pySorted (pyRange min_value max_value))
  else if hasStep s then
    match pyInt (s.drop 2) with
    | some freq =>
        match pySliceStep (pyRange min_value max_value) freq with
        | some l => some (pySorted l)
        | none => none
    | none => none
  else
    match finish_parse s with
    | some l => some (pySorted l)
    | none => none

/-- One parsed crontab line (class `CronJob`): the five raw field texts, the
action text, and the five resolved value lists. -/
structure CronJob where
  minute : List Char
  hour : List Char
  dom : List Char
  month : List Char
  dow : List Char
  action : List Char
  cron_minutes : List Int
  cron_hours : List Int
  cron_dom : List Int
  cron_months : List Int
  cron_dow : List Int
deriving DecidableEq

/-- Python `' '.join(pieces)`. -/
def joinSpace : List (List Char) → List Char
  | [] => []
  | [p] => p
  | p :: ps => p ++ ' ' :: joinSpace ps

def isWs (c : Char) : Bool := c == ' ' || c == '\t' || c == '\n' || c == '\r'

/-- Python `str.strip()`. -/
def trimWs (l : List Char) : List Char :=
  ((l.dropWhile isWs).reverse.dropWhile isWs).reverse

/-- `CronJob.__init__` / `CronJob.parse` (cronrecon.py lines 28-107): split
the raw line on single spaces, drop empty tokens (`filter(None, ...)`), take
the five schedule fields (fewer raises `IndexError`), join and strip the rest
as the action, and resolve each field with its `MIN`/`MAX` pair
(minute 0/60, hour 0/24, day-of-month 1/32, month 1/13, day-of-week 0/7). -/
def parseJob (raw : List Char) : Option CronJob :=
  match (splitOnChar ' ' raw).filter (fun f => !f.isEmpty) with
  | fMin :: fHour :: fDom :: fMonth :: fDow :: rest =>
      match start_parse fMonth 1 13, start_parse fMin 0 60, start_parse fHour 0 24,
            start_parse fDom 1 32, start_parse fDow 0 7 with
      | some months, some mins, some hours, some doms, some dows =>
          some { minute := fMin, hour := fHour, dom := fDom, month := fMonth,
                 dow := fDow, action := trimWs (joinSpace rest),
                 cron_minutes := mins, cron_hours := hours, cron_dom := doms,
                 cron_months := months, cron_dow := dows }
      | _, _, _, _, _ => none
  | _ => none

/-- Model of `datetime.datetime` at the granularity this program uses
(microseconds are never observed by it). -/
structure PyDateTime where
  year : Int
  month : Int
  day : Int
  hour : Int
  minute : Int
  second : Int
deriving DecidableEq

/-- Gregorian leap-year rule (as used by Python's `calendar`). -/
def isLeap (y : Int) : Bool := y % 4 == 0 && (y % 100 != 0 || y % 400 == 0)

/-- `calendar.monthrange(y, m)[-1]`: the day count of a month (0 for a month
outside `1..12`, where Python would raise instead). -/
def daysInMonth (y m : Int) : Int :=
  if m = 2 then (if isLeap y then 29 else 28)
  else if m = 4 ∨ m = 6 ∨ m = 9 ∨ m = 11 then 30
  else if 1 ≤ m ∧ m ≤ 12 then 31
  else 0

/-- The validity invariant `datetime.datetime` enforces on construction and
on every `replace` (minus the year-9999 ceiling, not modelled). -/
def pyValid (dt : PyDateTime) : Prop :=
  1 ≤ dt.year ∧ 1 ≤ dt.month ∧ dt.month ≤ 12 ∧
  1 ≤ dt.day ∧ dt.day ≤ daysInMonth dt.year dt.month ∧
  0 ≤ dt.hour ∧ dt.hour < 24 ∧ 0 ≤ dt.minute ∧ dt.minute < 60 ∧
  0 ≤ dt.second ∧ dt.second < 60

instance (dt : PyDateTime) : Decidable (pyValid dt) := by
  unfold pyValid; exact inferInstance

/-- The `datetime.datetime(...)` constructor: `ValueError` (`none`) on an
invalid combination. -/
def mkDateTime (y mo d h mi s : Int) : Option PyDateTime :=
  if pyValid ⟨y, mo, d, h, mi, s⟩ then some ⟨y, mo, d, h, mi, s⟩ else none

def replace_minute (dt : PyDateTime) (v : Int) : Option PyDateTime :=
  mkDateTime dt.year dt.month dt.day dt.hour v dt.second

def replace_hour (dt : PyDateTime) (v : Int) : Option PyDateTime :=
  mkDateTime dt.year dt.month dt.day v dt.minute dt.second

def replace_day (dt : PyDateTime) (v : Int) : Option PyDateTime :=
  mkDateTime dt.year dt.month v dt.hour dt.minute dt.second

def replace_month (dt : PyDateTime) (v : Int) : Option PyDateTime :=
  mkDateTime dt.year v dt.day dt.hour dt.minute dt.second

def replace_year_month (dt : PyDateTime) (y mo : Int) : Option PyDateTime :=
  mkDateTime y mo dt.day dt.hour dt.minute dt.second

/-- Calendar successor day (time of day untouched). -/
def nextDay (dt : PyDateTime) : PyDateTime :=
  if dt.day < daysInMonth dt.year dt.month then { dt with day := dt.day + 1 }
  else if dt.month < 12 then { dt with month := dt.month + 1, day := 1 }
  else { dt with year := dt.year + 1, month := 1, day := 1 }

/-- Calendar predecessor day. -/
def prevDay (dt : PyDateTime) : PyDateTime :=
  if 1 < dt.day then { dt with day := dt.day - 1 }
  else if 1 < dt.month then
    { dt with month := dt.month - 1, day := daysInMonth dt.year (dt.month - 1) }
  else { dt with year := dt.year - 1, month := 12, day := 31 }

def addDaysNat : PyDateTime → Nat → PyDateTime
  | dt, 0 => dt
  | dt, n + 1 => addDaysNat (nextDay dt) n

def subDaysNat : PyDateTime → Nat → PyDateTime
  | dt, 0 => dt
  | dt, n + 1 => subDaysNat (prevDay dt) n

/-- `dt + datetime.timedelta(days=k)`. -/
def addDays (dt : PyDateTime) (k : Int) : PyDateTime :=
  if 0 ≤ k then addDaysNat dt k.toNat else subDaysNat dt (-k).toNat

/-- `dt + datetime.timedelta(hours=1)`. -/
def addHour (dt : PyDateTime) : PyDateTime :=
  if dt.hour < 23 then { dt with hour := dt.hour + 1 } else { nextDay dt with hour := 0 }

/-- Sakamoto day-of-week table value for month `m` (January = 1). -/
def sakamotoOffset (m : Int) : Int :=
  if m = 1 then 0 else if m = 2 then 3 else if m = 3 then 2 else if m = 4 then 5
  else if m = 5 then 0 else if m = 6 then 3 else if m = 7 then 5 else if m = 8 then 1
  else if m = 9 then 4 else if m = 10 then 6 else if m = 11 then 2 else 4

/-- Day of week with Sunday = 0, by Sakamoto's congruence (correct for every
valid Gregorian date). -/
def weekdaySun0 (y m d : Int) : Int :=
  let yy := if m < 3 then y - 1 else y
  (yy + yy / 4 - yy / 100 + yy / 400 + sakamotoOffset m + d) % 7

/-- Python `datetime.weekday()`: Monday = 0 … Sunday = 6. -/
def pyWeekday (dt : PyDateTime) : Int := (weekdaySun0 dt.year dt.month dt.day + 6) % 7

/-- Python `datetime` comparison `a < b` (chronological; on the always-valid
`datetime` values this is lexicographic on the components). -/
def pyLt (a b : PyDateTime) : Prop :=
  a.year < b.year ∨ (a.year = b.year ∧
    (a.month < b.month ∨ (a.month = b.month ∧
      (a.day < b.day ∨ (a.day = b.day ∧
        (a.hour < b.hour ∨ (a.hour = b.hour ∧
          (a.minute < b.minute ∨ (a.minute = b.minute ∧
            a.second < b.second)))))))))

instance (a b : PyDateTime) : Decidable (pyLt a b) := by
  unfold pyLt; exact inferInstance

/-- Strict chronological order on the date components only. -/
def dateLt (a b : PyDateTime) : Prop :=
  a.year < b.year ∨ (a.year = b.year ∧
    (a.month < b.month ∨ (a.month = b.month ∧ a.day < b.day)))

/-- Strict chronological order on the date-and-hour components only. -/
def dhLt (a b : PyDateTime) : Prop :=
  dateLt a b ∨ (a.year = b.year ∧ a.month = b.month ∧ a.day = b.day ∧ a.hour < b.hour)

/-- Python `datetime` comparison `a <= b`. -/
def pyLe (a b : PyDateTime) : Prop :=
  pyLt a b ∨ (a.year = b.year ∧ a.month = b.month ∧ a.day = b.day ∧
    a.hour = b.hour ∧ a.minute = b.minute ∧ a.second = b.second)

instance (a b : PyDateTime) : Decidable (pyLe a b) := by
  unfold pyLe; exact inferInstance

/-- `first_common_value(list1, list2)` (cronrecon.py lines 114-116): the
first element of `list1` occurring in `list2`; `StopIteration` (`none`) when
there is none. -/
def first_common_value (list1 list2 : List Int) : Option Int :=
  list1.find? (fun i => list2.contains i)

/-- The `except` arm of `set_next_minute` (cronrecon.py lines 125-128):
advance one hour and set the minute to the minute set's first element.  An
empty list (`IndexError`) or an out-of-range value (`ValueError` in
`replace`) raises out of `next_run`. -/
def minuteWrap (j : CronJob) (dt : PyDateTime) : Option PyDateTime :=
  match j.cron_minutes.head? with
  | some m0 => replace_minute (addHour dt) m0
  | none => none

/-- `set_next_minute` (cronrecon.py lines 118-130).  When a matching minute
other than the current one is found, line 124 calls `replace_minute`, a name
that is defined nowhere in the module; the `NameError` it raises is swallowed
by the bare `except Exception` of line 125, so control falls into the wrap
branch exactly as if no minute had matched. -/
def set_next_minute (j : CronJob) (dt : PyDateTime) : Option PyDateTime :=
  match first_common_value (pyRange dt.minute 60) j.cron_minutes with
  | some next_min => if next_min = dt.minute then some dt else minuteWrap j dt
  | none => minuteWrap j dt

/-- The `except` arm of `set_next_hour` (cronrecon.py lines 139-142): move
into the next day and set the hour to the hour set's first element. -/
def hourWrap (j : CronJob) (dt : PyDateTime) : Option PyDateTime :=
  match j.cron_hours.head? with
  | some h0 => replace_hour (nextDay dt) h0
  | none => none

/-- `set_next_hour` (cronrecon.py lines 132-144): keep a matching current
hour, otherwise `replace` the hour with the first match in the rest of the
day; a `ValueError` from the `replace` (inside the `try`) also falls into the
wrap branch. -/
def set_next_hour (j : CronJob) (dt : PyDateTime) : Option PyDateTime :=
  match first_common_value (pyRange dt.hour 24) j.cron_hours with
  | some next_hour =>
      if next_hour = dt.hour then some dt
      else
        match replace_hour dt next_hour with
        | some d => some d
        | none => hourWrap j dt
  | none => hourWrap j dt

/-- The `except` arm of the day-of-month candidate (cronrecon.py lines
158-164): land `monthrange(...)[-1] - day + cron_dom[0]` days ahead. -/
def dom_overflow (j : CronJob) (dt : PyDateTime) : Option PyDateTime :=
  match j.cron_dom.head? with
  | some m0 => some (addDays dt (daysInMonth dt.year dt.month - dt.day + m0))
  | none => none

/-- The `test_dom` computation of `set_next_day` (cronrecon.py lines
151-164): first matching day-of-month in the rest of the month, with the
overflow arm on exhaustion; a `ValueError` from `replace(day=...)` (inside
the `try`) also falls into the overflow arm. -/
def dom_candidate (j : CronJob) (dt : PyDateTime) : Option PyDateTime :=
  match first_common_value (pyRange dt.day 32) j.cron_dom with
  | some next_dom =>
      if next_dom = dt.day then some dt
      else
        match replace_day dt next_dom with
        | some d => some d
        | none => dom_overflow j dt
  | none => dom_overflow j dt

/-- The `except` arm of the day-of-week candidate (cronrecon.py lines
174-179): advance `7 - weekday + cron_dow[0]` days into the next week. -/
def dowWrap (j : CronJob) (dt : PyDateTime) : Option PyDateTime :=
  match j.cron_dow.head? with
  | some w0 => some (addDays dt (7 - pyWeekday dt + w0))
  | none => none

/-- The `test_dow` computation of `set_next_day` (cronrecon.py lines
166-179): first matching weekday at or after the current one, else wrap to
the next week. -/
def dow_candidate (j : CronJob) (dt : PyDateTime) : Option PyDateTime :=
  match first_common_value (pyRange (pyWeekday dt) 7) j.cron_dow with
  | some next_dow =>
      if 0 < next_dow - pyWeekday dt then some (addDays dt (next_dow - pyWeekday dt))
      else some dt
  | none => dowWrap j dt

/-- The `use_dom` local of `set_next_day` (cronrecon.py lines 181-196):
day-of-month restricted and day-of-week not → day-of-month; the converse →
day-of-week; both restricted → whichever test date is strictly earlier wins
for day-of-month, ties and later go to day-of-week; neither restricted →
the initial `use_dom = True` stands. -/
def use_dom_flag (j : CronJob) (test_dom test_dow : PyDateTime) : Bool :=
  if j.dom ≠ starT ∧ j.dow = starT then true
  else if j.dom = starT ∧ j.dow ≠ starT then false
  else if j.dom ≠ starT ∧ j.dow ≠ starT then decide (pyLt test_dom test_dow)
  else true

/-- `set_next_day` (cronrecon.py lines 146-207): compute both candidates
(each may raise, aborting the call), pick one by the DOM/DOW precedence rule
of lines 181-196, and return it through the `assert` of line 202 / 206 (a
failed assertion raises out of `next_run`). -/
def set_next_day (j : CronJob) (dt : PyDateTime) : Option PyDateTime :=
  match dom_candidate j dt, dow_candidate j dt with
  | some test_dom, some test_dow =>
      if use_dom_flag j test_dom test_dow then
        if j.cron_dom.contains test_dom.day then some test_dom else none
      else
        if j.cron_dow.contains (pyWeekday test_dow) then some test_dow else none
  | none, _ => none
  | some _, none => none

/-- The `except` arm of `set_next_month` (cronrecon.py lines 219-222):
`replace(year=year+1, month=cron_months[0])`. -/
def monthWrap (j : CronJob) (dt : PyDateTime) : Option PyDateTime :=
  match j.cron_months.head? with
  | some m0 => replace_year_month dt (dt.year + 1) m0
  | none => none

/-- `set_next_month` (cronrecon.py lines 209-224): keep a matching current
month, otherwise `replace` the month with the first match in the rest of the
year; a `ValueError` from the `replace` (inside the `try`) also falls into
the wrap branch. -/
def set_next_month (j : CronJob) (dt : PyDateTime) : Option PyDateTime :=
  match first_common_value (pyRange dt.month 13) j.cron_months with
  | some next_month =>
      if next_month = dt.month then some dt
      else
        match replace_month dt next_month with
        | some d => some d
        | none => monthWrap j dt
  | none => monthWrap j dt

/-- `create_date` (cronrecon.py lines 226-238): the four passes in their
fixed order, each feeding the next. -/
def create_date (j : CronJob) (dt : PyDateTime) : Option PyDateTime :=
  (((set_next_minute j dt).bind (set_next_hour j)).bind (set_next_day j)).bind
    (set_next_month j)

/-- Lines 242-246: `datetime.datetime(year, month, day, hour, minute)` —
the reference instant truncated to minute granularity. -/
def truncToMinute (dt : PyDateTime) : PyDateTime := { dt with second := 0 }

/-- `next_run` (cronrecon.py lines 109-248) with an explicit reference
instant (the `start_dt=None` default takes `datetime.datetime.now()`, a wall
clock outside this model). -/
def next_run (j : CronJob) (dt : PyDateTime) : Option PyDateTime :=
  create_date j (truncToMinute dt)

/-- The job parsed from the crontab line `30 2 * * 0  weekly-backup`
(02:30 on cron day-of-week 0). -/
def jobWeekly : CronJob :=
  { minute := ['3', '0'], hour := ['2'], dom := ['*'], month := ['*'],
    dow := ['0'],
    action := ['w', 'e', 'e', 'k', 'l', 'y', '-', 'b', 'a', 'c', 'k', 'u', 'p'],
    cron_minutes := [30], cron_hours := [2], cron_dom := pyRange 1 32,
    cron_months := pyRange 1 13, cron_dow := [0] }

/-- The raw text of the line `30 2 * * 0  weekly-backup`. -/
def rawWeekly : List Char :=
  ['3', '0', ' ', '2', ' ', '*', ' ', '*', ' ', '0', ' ', ' ',
   'w', 'e', 'e', 'k', 'l', 'y', '-', 'b', 'a', 'c', 'k', 'u', 'p']

/-- The job parsed from the line `0 0 * 2 *  feb-job` (midnight every
February day). -/
def jobFeb : CronJob :=
  { minute := ['0'], hour := ['0'], dom := ['*'], month := ['2'], dow := ['*'],
    action := ['f', 'e', 'b', '-', 'j', 'o', 'b'],
    cron_minutes := [0], cron_hours := [0], cron_dom := pyRange 1 32,
    cron_months := [2], cron_dow := pyRange 0 7 }

/-- The raw text of the line `0 0 * 2 *  feb-job`. -/
def rawFeb : List Char :=
  ['0', ' ', '0', ' ', '*', ' ', '2', ' ', '*', ' ', ' ', 'f', 'e', 'b', '-', 'j', 'o', 'b']

/-- The job parsed from the line `0 0 30 * *  monthly` (midnight on the
30th of every month). -/
def jobDom30 : CronJob :=
  { minute := ['0'], hour := ['0'], dom := ['3', '0'], month := ['*'], dow := ['*'],
    action := ['m', 'o', 'n', 't', 'h', 'l', 'y'],
    cron_minutes := [0], cron_hours := [0], cron_dom := [30],
    cron_months := pyRange 1 13, cron_dow := pyRange 0 7 }

/-- The raw text of the line `0 0 30 * *  monthly`. -/
def rawDom30 : List Char :=
  ['0', ' ', '0', ' ', '3', '0', ' ', '*', ' ', '*', ' ', ' ',
   'm', 'o', 'n', 't', 'h', 'l', 'y']

/-- The job parsed from the line `0 12 * * 6  sat-job` (noon on cron
day-of-week 6). -/
def jobSat : CronJob :=
  { minute := ['0'], hour := ['1', '2'], dom := ['*'], month := ['*'], dow := ['6'],
    action := ['s', 'a', 't', '-', 'j', 'o', 'b'],
    cron_minutes := [0], cron_hours := [12], cron_dom := pyRange 1 32,
    cron_months := pyRange 1 13, cron_dow := [6] }

/-- The raw text of the line `0 12 * * 6  sat-job`. -/
def rawSat : List Char :=
  ['0', ' ', '1', '2', ' ', '*', ' ', '*', ' ', '6', ' ', ' ',
   's', 'a', 't', '-', 'j', 'o', 'b']

/-- The job parsed from the line `* * * * x  cmd`: the non-numeric
day-of-week token is silently dropped, leaving an empty resolved set. -/
def jobEmptyDow : CronJob :=
  { minute := ['*'], hour := ['*'], dom := ['*'], month := ['*'], dow := ['x'],
    action := ['c', 'm', 'd'],
    cron_minutes := pyRange 0 60, cron_hours := pyRange 0 24,
    cron_dom := pyRange 1 32, cron_months := pyRange 1 13, cron_dow := [] }

/-- The raw text of the line `* * * * x  cmd`. -/
def rawEmptyDow : List Char :=
  ['*', ' ', '*', ' ', '*', ' ', '*', ' ', 'x', ' ', ' ', 'c', 'm', 'd']

/-- The day-of-week numbering the specification assigns to the day-of-week
field (Sunday = 0 … Saturday = 6); written from the spec's words, for
comparison against the code's `datetime.weekday()`-based behaviour. -/
def specSunday0Weekday (dt : PyDateTime) : Int :=
  weekdaySun0 dt.year dt.month dt.day

/-- The first day of the month following `dt`'s month, keeping the time of
day (used to state where the day-of-month overflow lands). -/
def firstOfNextMonth (dt : PyDateTime) : PyDateTime :=
  if dt.month < 12 then { dt with month := dt.month + 1, day := 1 }
  else { dt with year := dt.year + 1, month := 1, day := 1 }


/-! ### Supporting lemmas about the field parser -/

theorem mem_pyRange {v a b : Int} : v ∈ pyRange a b ↔ a ≤ v ∧ v < b := by
  unfold pyRange
  simp only [List.mem_map, List.mem_range]
  constructor
  · rintro ⟨i, hi, rfl⟩; omega
  · intro h; exact ⟨(v - a).toNat, by omega, by omega⟩

theorem pyRange_sorted (a b : Int) : List.Sorted (· ≤ ·) (pyRange a b) := by
  unfold pyRange
  exact List.Pairwise.map _ (fun {x y} h => by omega) (List.pairwise_le_range _)

theorem mem_everyNthAux {α} {v : α} (k : Nat) :
    ∀ (l : List α) (i : Nat), v ∈ everyNthAux k l i → v ∈ l := by
  intro l
  induction l with
  | nil => intro i h; simp [everyNthAux] at h
  | cons x xs ih =>
      intro i h
      unfold everyNthAux at h
      split at h
      · rcases List.mem_cons.mp h with h1 | h2
        · exact h1 ▸ List.mem_cons_self x xs
        · exact List.mem_cons_of_mem x (ih (i + 1) h2)
      · exact List.mem_cons_of_mem x (ih (i + 1) h)

theorem mem_everyNth {α} {v : α} {l : List α} {k : Nat} (h : v ∈ everyNth l k) :
    v ∈ l := mem_everyNthAux k l 0 h

theorem mem_pySliceStep {α} {v : α} {l l2 : List α} {f : Int}
    (h : pySliceStep l f = some l2) (hv : v ∈ l2) : v ∈ l := by
  unfold pySliceStep at h
  split at h
  · exact absurd h (by simp)
  · split at h
    · cases h; exact mem_everyNth hv
    · cases h; exact List.mem_reverse.mp (mem_everyNth hv)

theorem pySorted_sorted (l : List Int) : List.Sorted (· ≤ ·) (pySorted l) :=
  List.sorted_insertionSort (· ≤ ·) l

theorem mem_pySorted {v : Int} {l : List Int} : v ∈ pySorted l ↔ v ∈ l :=
  List.mem_insertionSort (· ≤ ·)

theorem pySorted_of_sorted {l : List Int} (h : List.Sorted (· ≤ ·) l) :
    pySorted l = l := h.insertionSort_eq

/-! ### Claim theorems: the field parser (C4, C8) -/

/-- C4 counterexample: the field text `99,99` with minute bounds `[0, 60)`
resolves to `[99, 99]`, whose values are not below the exclusive maximum and
which contains a duplicate — refuting the claim that every produced value of
a comma list lies in `[min, max)` and that the list has no duplicates. -/
theorem c4_counterexample :
    start_parse ['9', '9', ',', '9', '9'] 0 60 = some [99, 99] ∧
    ¬ ((99 : Int) < 60) ∧ ¬ ([99, 99] : List Int).Nodup := by decide

/-- C4 (amended): every list `start_parse` resolves is sorted ascending, and
for the wildcard and step forms (`*`, `*/N`) every produced value lies in
`[min, max)`; explicit values are passed through unclamped and duplicates may
remain (see the counterexample). -/
theorem c4_amended_sorted_and_bounded (s : List Char) (mn mx : Int) (l : List Int)
    (h : start_parse s mn mx = some l) :
    List.Sorted (· ≤ ·) l ∧
    ((s = starT ∨ hasStep s = true) → ∀ v ∈ l, mn ≤ v ∧ v < mx) := by
  unfold start_parse at h
  split at h
  · cases h
    refine ⟨pySorted_sorted _, fun _ v hv => ?_⟩
    exact mem_pyRange.mp (mem_pySorted.mp hv)
  · split at h
    · -- the `*/N` branch
      rename_i hstar hstep
      split at h
      · rename_i freq hfreq
        split at h
        · rename_i l2 hsl
          cases h
          refine ⟨pySorted_sorted _, fun _ v hv => ?_⟩
          exact mem_pyRange.mp (mem_pySliceStep hsl (mem_pySorted.mp hv))
        · exact absurd h (by simp)
      · exact absurd h (by simp)
    · rename_i hstar hstep
      split at h
      · rename_i l2 hf
        cases h
        refine ⟨pySorted_sorted _, fun hor => ?_⟩
        rcases hor with h1 | h2
        · exact absurd h1 hstar
        · exact absurd h2 (by simpa using hstep)
      · exact absurd h (by simp)

/-- Witness for the amended C4 at the concrete step field `*/15` over
`[0, 60)`. -/
theorem c4_amended_witness :
    List.Sorted (· ≤ ·) ([0, 15, 30, 45] : List Int) ∧
    ∀ v ∈ ([0, 15, 30, 45] : List Int), (0 : Int) ≤ v ∧ v < 60 := by
  have h := c4_amended_sorted_and_bounded ['*', '/', '1', '5'] 0 60 [0, 15, 30, 45]
    (by decide)
  exact ⟨h.1, h.2 (Or.inr (by decide))⟩

/-- C8: no bounds-clamping.  Under the conditions that route a field text to
`finish_parse` (not `*`, no `*/`, no comma), a plain integer token resolves
to its singleton and a dash range `A-B` resolves to exactly `[A, B]`
inclusive, for arbitrary `min`/`max` — the bounds play no role, so explicit
values outside `[min, max)` are passed through as-is. -/
theorem c8_no_bounds_clamping (s : List Char) (mn mx : Int)
    (hstar : s ≠ starT) (hstep : hasStep s = false) (hcomma : s.contains ',' = false) :
    (∀ v : Int, s.contains '-' = false → pyInt s = some v →
      start_parse s mn mx = some [v]) ∧
    (∀ (sa sb : List Char) (rest : List (List Char)) (a b : Int),
      s.contains '-' = true → splitOnChar '-' s = sa :: sb :: rest →
      pyInt sa = some a → pyInt sb = some b →
      start_parse s mn mx = some (pyRange a (b + 1))) := by
  constructor
  · intro v hdash hint
    unfold start_parse
    rw [if_neg hstar, if_neg (by rw [hstep]; exact Bool.false_ne_true)]
    unfold finish_parse
    rw [if_neg (by rw [hcomma]; exact Bool.false_ne_true)]
    unfold parsePiece
    rw [if_neg (by rw [hdash]; exact Bool.false_ne_true), hint]
    rfl
  · intro sa sb rest a b hdash hsplit hia hib
    unfold start_parse
    rw [if_neg hstar, if_neg (by rw [hstep]; exact Bool.false_ne_true)]
    unfold finish_parse
    rw [if_neg (by rw [hcomma]; exact Bool.false_ne_true)]
    unfold parsePiece
    rw [if_pos hdash, hsplit]
    dsimp only
    rw [hia, hib]
    simp only [Option.some.injEq]
    exact pySorted_of_sorted (pyRange_sorted a (b + 1))

/-- Witness for C8: the minute field `99` resolves to `[99]` and the minute
field `50-70` to `[50, …, 70]`, both untouched by the `[0, 60)` bounds. -/
theorem c8_witness :
    start_parse ['9', '9'] 0 60 = some [99] ∧
    start_parse ['5', '0', '-', '7', '0'] 0 60 = some (pyRange 50 71) :=
  ⟨(c8_no_bounds_clamping ['9', '9'] 0 60 (by decide) (by decide) (by decide)).1
      99 (by decide) (by decide),
   (c8_no_bounds_clamping ['5', '0', '-', '7', '0'] 0 60 (by decide) (by decide)
      (by decide)).2 ['5', '0'] ['7', '0'] [] 50 70 (by decide) (by decide)
      (by decide) (by decide)⟩

/-! ### Claim theorems: concrete divergences of the calculator (C1, C2, C3, C9) -/

/-- C1: the minute pass diverges from its specification.  For the job
`30 2 * * 0  weekly-backup` at reference 2024-03-01 00:10, minute 30 is a
minute-set member at or after the current minute 10 within `[10, 60)`, so the
specified pass keeps the hour and sets the minute to 30 (00:30); the code's
line 124 instead raises `NameError` (`replace_minute` is undefined), the bare
`except` swallows it, and the instant is advanced one hour to 01:30. -/
theorem c1_minute_pass_wrap_bug :
    (30 : Int) ∈ jobWeekly.cron_minutes ∧ (10 : Int) ≤ 30 ∧ (30 : Int) < 60 ∧
    set_next_minute jobWeekly ⟨2024, 3, 1, 0, 10, 0⟩ = some ⟨2024, 3, 1, 1, 30, 0⟩ ∧
    (⟨2024, 3, 1, 1, 30, 0⟩ : PyDateTime) ≠ ⟨2024, 3, 1, 0, 30, 0⟩ := by
  decide

/-- C2: for the job parsed from `30 2 * * 0  weekly-backup` evaluated at
reference 2024-03-01 00:00 (a Friday), `next_run` returns 2024-03-04 02:30
(the Monday), not the 2024-03-03 02:30 (the Sunday) the claim requires:
the code matches the day-of-week value 0 against Python's Monday=0
`weekday()` numbering. -/
theorem c2_weekly_backup_monday :
    parseJob rawWeekly = some jobWeekly ∧
    next_run jobWeekly ⟨2024, 3, 1, 0, 0, 0⟩ = some ⟨2024, 3, 4, 2, 30, 0⟩ ∧
    (⟨2024, 3, 4, 2, 30, 0⟩ : PyDateTime) ≠ ⟨2024, 3, 3, 2, 30, 0⟩ := by
  decide

/-- C3: the resolved day-of-week value 6 does not match Saturdays.  For the
job parsed from `0 12 * * 6  sat-job` at reference 2024-03-04 00:00 (a
Monday), the code skips Saturday 2024-03-09 (whose Sunday=0 weekday is 6)
and fires on Sunday 2024-03-10 (whose Sunday=0 weekday is 0): the code
compares the field against Python's Monday=0 `weekday()`, not the
Sunday=0 convention the claim states. -/
theorem c3_dow_monday_convention :
    parseJob rawSat = some jobSat ∧ jobSat.cron_dow = [6] ∧
    specSunday0Weekday ⟨2024, 3, 9, 12, 0, 0⟩ = 6 ∧
    next_run jobSat ⟨2024, 3, 4, 0, 0, 0⟩ = some ⟨2024, 3, 10, 12, 0, 0⟩ ∧
    specSunday0Weekday ⟨2024, 3, 10, 12, 0, 0⟩ = 0 := by
  decide

/-- C9: a legal-valued job on which `next_run` raises.  The job parsed from
`0 0 * 2 *  feb-job` has non-empty resolved sets whose values all lie in the
legal field ranges, yet at reference 2024-01-31 00:00 the month pass calls
`replace(month=2)` with day 31 — `ValueError` — and the `except` arm's
`replace(year=2025, month=2)` raises again, uncaught. -/
theorem c9_day31_february_replace_raises :
    parseJob rawFeb = some jobFeb ∧
    jobFeb.cron_minutes ≠ [] ∧ jobFeb.cron_hours ≠ [] ∧ jobFeb.cron_dom ≠ [] ∧
    jobFeb.cron_months ≠ [] ∧ jobFeb.cron_dow ≠ [] ∧
    (∀ v ∈ jobFeb.cron_minutes, 0 ≤ v ∧ v < 60) ∧
    (∀ v ∈ jobFeb.cron_hours, 0 ≤ v ∧ v < 24) ∧
    (∀ v ∈ jobFeb.cron_dom, 1 ≤ v ∧ v < 32) ∧
    (∀ v ∈ jobFeb.cron_months, 1 ≤ v ∧ v < 13) ∧
    (∀ v ∈ jobFeb.cron_dow, 0 ≤ v ∧ v < 7) ∧
    next_run jobFeb ⟨2024, 1, 31, 0, 0, 0⟩ = none := by
  decide

/-! ### Claim theorems: empty resolved sets (C6) -/

theorem first_common_value_nil (l1 : List Int) : first_common_value l1 [] = none := by
  unfold first_common_value
  apply List.find?_eq_none.mpr
  intro x hx
  simp

theorem set_next_minute_nil (j : CronJob) (dt : PyDateTime)
    (h : j.cron_minutes = []) : set_next_minute j dt = none := by
  unfold set_next_minute minuteWrap
  rw [h, first_common_value_nil]
  rfl

theorem set_next_hour_nil (j : CronJob) (dt : PyDateTime)
    (h : j.cron_hours = []) : set_next_hour j dt = none := by
  unfold set_next_hour hourWrap
  rw [h, first_common_value_nil]
  rfl

theorem set_next_month_nil (j : CronJob) (dt : PyDateTime)
    (h : j.cron_months = []) : set_next_month j dt = none := by
  unfold set_next_month monthWrap
  rw [h, first_common_value_nil]
  rfl

theorem dom_candidate_nil (j : CronJob) (dt : PyDateTime)
    (h : j.cron_dom = []) : dom_candidate j dt = none := by
  unfold dom_candidate dom_overflow
  rw [h, first_common_value_nil]
  rfl

theorem dow_candidate_nil (j : CronJob) (dt : PyDateTime)
    (h : j.cron_dow = []) : dow_candidate j dt = none := by
  unfold dow_candidate dowWrap
  rw [h, first_common_value_nil]
  rfl

theorem set_next_day_nil_dom (j : CronJob) (dt : PyDateTime)
    (h : j.cron_dom = []) : set_next_day j dt = none := by
  unfold set_next_day
  rw [dom_candidate_nil j dt h]

theorem set_next_day_nil_dow (j : CronJob) (dt : PyDateTime)
    (h : j.cron_dow = []) : set_next_day j dt = none := by
  unfold set_next_day
  rw [dow_candidate_nil j dt h]
  cases dom_candidate j dt <;> rfl

theorem bind_none_of {α β : Type} (o : Option α) (f : α → Option β)
    (hf : ∀ a, f a = none) : o.bind f = none := by
  cases o <;> simp [hf]

/-- C6: a job any of whose five resolved sets is empty makes `next_run`
signal a fatal error (`IndexError` from `[0]` on the empty list, raised out
of the call): it never returns a date, and the search is a bounded scan, not
a loop. -/
theorem c6_empty_field_set_error (j : CronJob) (dt : PyDateTime)
    (h : j.cron_minutes = [] ∨ j.cron_hours = [] ∨ j.cron_dom = [] ∨
      j.cron_months = [] ∨ j.cron_dow = []) :
    next_run j dt = none := by
  unfold next_run create_date
  rcases h with h | h | h | h | h
  · rw [set_next_minute_nil j _ h]
    rfl
  · rw [bind_none_of _ _ (fun d => set_next_hour_nil j d h)]
    rfl
  · rw [bind_none_of _ _ (fun d => set_next_day_nil_dom j d h)]
    rfl
  · rw [bind_none_of _ _ (fun d => set_next_month_nil j d h)]
  · rw [bind_none_of _ _ (fun d => set_next_day_nil_dow j d h)]
    rfl

/-- Witness for C6: the parsed line `* * * * x  cmd` has an empty resolved
day-of-week set (the token `x` is silently dropped), and `next_run` on it
signals the error. -/
theorem c6_witness :
    parseJob rawEmptyDow = some jobEmptyDow ∧
    next_run jobEmptyDow ⟨2024, 1, 1, 0, 0, 0⟩ = none :=
  ⟨by decide,
   c6_empty_field_set_error jobEmptyDow ⟨2024, 1, 1, 0, 0, 0⟩ (by decide)⟩

/-! ### Claim theorems: counterexamples for C7 and C10 -/

/-- C7 counterexample: the job parsed from `0 0 30 * *  monthly` has all five
resolved sets non-empty, yet at reference 2025-01-31 00:00 `next_run` returns
no instant at all — the day-overflow lands on 2025-03-02 (January 31 plus
`31 - 31 + 30` days, across 28-day February), day 2 is not in the
day-of-month set, and the `assert` of line 202 raises. -/
theorem c7_counterexample :
    jobDom30.cron_minutes ≠ [] ∧ jobDom30.cron_hours ≠ [] ∧
    jobDom30.cron_dom ≠ [] ∧ jobDom30.cron_months ≠ [] ∧
    jobDom30.cron_dow ≠ [] ∧
    next_run jobDom30 ⟨2025, 1, 31, 0, 0, 0⟩ = none := by
  decide

/-- C10 counterexample: for the job parsed from `0 0 30 * *  monthly` at
reference 2024-01-31 00:00 the day pass takes the day-of-month overflow
branch (no member of `{30}` lies in `[31, 32)`), the day-of-month candidate
is selected (day-of-week is unrestricted), the overflow lands on
2024-03-01 — whose day 1 is not in the set — and the assertion fails
(the day pass raises, `none`). -/
theorem c10_counterexample :
    parseJob rawDom30 = some jobDom30 ∧
    first_common_value (pyRange 31 32) jobDom30.cron_dom = none ∧
    jobDom30.dom ≠ starT ∧ jobDom30.dow = starT ∧
    dom_candidate jobDom30 ⟨2024, 1, 31, 0, 0, 0⟩ = some ⟨2024, 3, 1, 0, 0, 0⟩ ∧
    jobDom30.cron_dom.contains (1 : Int) = false ∧
    set_next_day jobDom30 ⟨2024, 1, 31, 0, 0, 0⟩ = none := by
  decide

/-! ### Claim theorems: DOM/DOW precedence (C5) -/

/-- C5: the day pass follows the DOM/DOW precedence rule of cronrecon.py
lines 181-196.  With both candidates computed, a restricted day-of-month
(raw text not `*`) with unrestricted day-of-week selects the day-of-month
candidate; the symmetric case selects the day-of-week candidate; both
restricted selects whichever candidate is chronologically earlier (the
day-of-week candidate on a tie, which is then the same instant); neither
restricted selects the day-of-month candidate.  The selected candidate is
returned through the corresponding membership assertion. -/
theorem c5_dom_dow_precedence (j : CronJob) (dt : PyDateTime) (cd cw : PyDateTime)
    (hcd : dom_candidate j dt = some cd) (hcw : dow_candidate j dt = some cw) :
    (j.dom ≠ starT ∧ j.dow = starT →
      set_next_day j dt = (if j.cron_dom.contains cd.day then some cd else none)) ∧
    (j.dom = starT ∧ j.dow ≠ starT →
      set_next_day j dt =
        (if j.cron_dow.contains (pyWeekday cw) then some cw else none)) ∧
    (j.dom ≠ starT ∧ j.dow ≠ starT →
      set_next_day j dt =
        (if pyLt cd cw then (if j.cron_dom.contains cd.day then some cd else none)
         else (if j.cron_dow.contains (pyWeekday cw) then some cw else none))) ∧
    (j.dom = starT ∧ j.dow = starT →
      set_next_day j dt = (if j.cron_dom.contains cd.day then some cd else none)) := by
  unfold set_next_day use_dom_flag
  rw [hcd, hcw]
  refine ⟨?_, ?_, ?_, ?_⟩
  · rintro ⟨h1, h2⟩
    simp [h1, h2]
  · rintro ⟨h1, h2⟩
    simp [h1, h2]
  · rintro ⟨h1, h2⟩
    by_cases hlt : pyLt cd cw
    · simp [h1, h2, hlt]
    · simp [h1, h2, hlt]
  · rintro ⟨h1, h2⟩
    simp [h1, h2]

/-- Witness for C5 at the job `30 2 * * 0  weekly-backup` (day-of-month
unrestricted, day-of-week restricted): the day pass returns the day-of-week
candidate 2024-03-04 02:30. -/
theorem c5_witness :
    set_next_day jobWeekly ⟨2024, 3, 1, 2, 30, 0⟩ = some ⟨2024, 3, 4, 2, 30, 0⟩ := by
  have h := (c5_dom_dow_precedence jobWeekly ⟨2024, 3, 1, 2, 30, 0⟩
    ⟨2024, 3, 1, 2, 30, 0⟩ ⟨2024, 3, 4, 2, 30, 0⟩ (by decide) (by decide)).2.1
    ⟨by decide, by decide⟩
  rw [h]
  decide

/-! ### Supporting lemmas about the calendar model -/

theorem daysInMonth_bounds (y m : Int) (h1 : 1 ≤ m) (h2 : m ≤ 12) :
    28 ≤ daysInMonth y m ∧ daysInMonth y m ≤ 31 := by
  unfold daysInMonth
  split_ifs <;> omega

theorem pyValid_nextDay {dt : PyDateTime} (h : pyValid dt) : pyValid (nextDay dt) := by
  unfold pyValid at h
  unfold nextDay pyValid
  split_ifs with h1 h2
  · dsimp only
    omega
  · dsimp only
    have hb := daysInMonth_bounds dt.year (dt.month + 1) (by omega) (by omega)
    omega
  · dsimp only
    have hb := daysInMonth_bounds (dt.year + 1) 1 (by omega) (by omega)
    omega

theorem pyLt_of_dateLt (a b c : PyDateTime) (h : dateLt a b) (e1 : b.year = c.year)
    (e2 : b.month = c.month) (e3 : b.day = c.day) : pyLt a c := by
  unfold dateLt pyLt at *
  omega

theorem pyLt_of_dhLt (a b c : PyDateTime) (h : dhLt a b) (e1 : b.year = c.year)
    (e2 : b.month = c.month) (e3 : b.day = c.day) (e4 : b.hour = c.hour) :
    pyLt a c := by
  unfold dhLt dateLt pyLt at *
  omega

theorem dateLt_nextDay {dt : PyDateTime} (h : pyValid dt) : dateLt dt (nextDay dt) := by
  unfold pyValid at h
  unfold dateLt nextDay
  split_ifs <;> dsimp only <;> omega

theorem pyLt_nextDay {dt : PyDateTime} (h : pyValid dt) : pyLt dt (nextDay dt) :=
  pyLt_of_dateLt dt (nextDay dt) (nextDay dt) (dateLt_nextDay h) rfl rfl rfl

theorem pyLe_refl (a : PyDateTime) : pyLe a a := by
  unfold pyLe pyLt
  omega

theorem pyLe_trans (a b c : PyDateTime) (h1 : pyLe a b) (h2 : pyLe b c) : pyLe a c := by
  unfold pyLe at h1 h2 ⊢
  unfold pyLt at h1 h2 ⊢
  omega

theorem pyLt_le {a b : PyDateTime} (h : pyLt a b) : pyLe a b := by
  unfold pyLe
  unfold pyLt at h ⊢
  omega

theorem pyValid_addDaysNat (n : Nat) : ∀ dt : PyDateTime, pyValid dt →
    pyValid (addDaysNat dt n) := by
  induction n with
  | zero => intro dt h; exact h
  | succ n ih => intro dt h; exact ih (nextDay dt) (pyValid_nextDay h)

theorem pyLe_addDaysNat (n : Nat) : ∀ dt : PyDateTime, pyValid dt →
    pyLe dt (addDaysNat dt n) := by
  induction n with
  | zero => intro dt h; exact pyLe_refl dt
  | succ n ih =>
      intro dt h
      exact pyLe_trans _ _ _ (pyLt_le (pyLt_nextDay h)) (ih (nextDay dt) (pyValid_nextDay h))

theorem pyLe_addDays {dt : PyDateTime} {k : Int} (h : pyValid dt) (hk : 0 ≤ k) :
    pyLe dt (addDays dt k) := by
  unfold addDays
  rw [if_pos hk]
  exact pyLe_addDaysNat _ dt h

theorem pyValid_addDays {dt : PyDateTime} {k : Int} (h : pyValid dt) (hk : 0 ≤ k) :
    pyValid (addDays dt k) := by
  unfold addDays
  rw [if_pos hk]
  exact pyValid_addDaysNat _ dt h

theorem addDaysNat_within (n : Nat) : ∀ dt : PyDateTime, pyValid dt →
    dt.day + (n : Int) ≤ daysInMonth dt.year dt.month →
    addDaysNat dt n = { dt with day := dt.day + (n : Int) } := by
  induction n with
  | zero => intro dt h hle; simp [addDaysNat]
  | succ n ih =>
      intro dt h hle
      have hlt : dt.day < daysInMonth dt.year dt.month := by
        have : ((n : Int) + 1) = ((n + 1 : Nat) : Int) := by omega
        omega
      have hnd : nextDay dt = { dt with day := dt.day + 1 } := by
        unfold nextDay
        rw [if_pos hlt]
      show addDaysNat (nextDay dt) n = _
      rw [hnd]
      have h2 : pyValid { dt with day := dt.day + 1 } := by
        unfold pyValid at h ⊢
        dsimp only
        omega
      rw [ih _ h2 (by dsimp only; omega)]
      dsimp only
      congr 1
      omega

theorem nextDay_lastDay {dt : PyDateTime} (h : pyValid dt)
    (hd : dt.day = daysInMonth dt.year dt.month) :
    nextDay dt = firstOfNextMonth dt := by
  unfold pyValid at h
  unfold nextDay firstOfNextMonth
  rw [if_neg (by omega)]

theorem pyValid_firstOfNextMonth {dt : PyDateTime} (h : pyValid dt) :
    pyValid (firstOfNextMonth dt) := by
  unfold pyValid at h
  unfold firstOfNextMonth pyValid
  split_ifs with h1
  · dsimp only
    have hb := daysInMonth_bounds dt.year (dt.month + 1) (by omega) (by omega)
    omega
  · dsimp only
    have hb := daysInMonth_bounds (dt.year + 1) 1 (by omega) (by omega)
    omega

theorem addDaysNat_add (m n : Nat) : ∀ dt : PyDateTime,
    addDaysNat dt (m + n) = addDaysNat (addDaysNat dt m) n := by
  induction m with
  | zero => intro dt; rw [Nat.zero_add]; rfl
  | succ m ih => intro dt; rw [Nat.succ_add]; exact ih (nextDay dt)

theorem head?_mem {l : List Int} {a : Int} (h : l.head? = some a) : a ∈ l := by
  cases l with
  | nil => simp at h
  | cons x xs =>
      simp only [List.head?_cons, Option.some.injEq] at h
      exact h ▸ List.mem_cons_self x xs

/-! ### Claim theorems: day-of-month overflow landing (C10) -/

theorem firstOfNextMonth_day_one (dt : PyDateTime) : (firstOfNextMonth dt).day = 1 := by
  unfold firstOfNextMonth
  split_ifs <;> rfl

/-- C10 (amended): whenever the day pass takes the day-of-month overflow
branch, the landed date's day is a member of the day-of-month set
*provided* the set's smallest member `m0` satisfies
`1 ≤ m0 ≤ daysInMonth` of the month following the reference month: the
overflow then lands exactly on day `m0` of that following month.  Without
that proviso the landed day can miss the set and the assertion fails (see
the counterexample). -/
theorem c10_amended_overflow_landing (j : CronJob) (dt : PyDateTime) (m0 : Int)
    (d : PyDateTime) (hv : pyValid dt) (hh : j.cron_dom.head? = some m0)
    (h1 : 1 ≤ m0)
    (h2 : m0 ≤ daysInMonth (firstOfNextMonth dt).year (firstOfNextMonth dt).month)
    (hof : dom_overflow j dt = some d) :
    d.day = m0 ∧ d.day ∈ j.cron_dom ∧
    d.year = (firstOfNextMonth dt).year ∧ d.month = (firstOfNextMonth dt).month := by
  unfold dom_overflow at hof
  rw [hh, Option.some.injEq] at hof
  subst hof
  have hvr := hv
  unfold pyValid at hvr
  have hk : 0 ≤ daysInMonth dt.year dt.month - dt.day + m0 := by omega
  unfold addDays
  rw [if_pos hk]
  have hsplitn : (daysInMonth dt.year dt.month - dt.day + m0).toNat =
      (daysInMonth dt.year dt.month - dt.day).toNat + m0.toNat := by omega
  rw [hsplitn, addDaysNat_add]
  have hA : addDaysNat dt (daysInMonth dt.year dt.month - dt.day).toNat =
      { dt with day := daysInMonth dt.year dt.month } := by
    rw [addDaysNat_within _ dt hv (by omega)]
    congr 1
    omega
  rw [hA]
  have hAv : pyValid { dt with day := daysInMonth dt.year dt.month } := by
    unfold pyValid
    dsimp only
    omega
  obtain ⟨n2m, hs⟩ : ∃ r, m0.toNat = 1 + r := ⟨m0.toNat - 1, by omega⟩
  rw [hs, addDaysNat_add]
  have hB : addDaysNat { dt with day := daysInMonth dt.year dt.month } 1 =
      firstOfNextMonth dt := by
    show nextDay { dt with day := daysInMonth dt.year dt.month } = firstOfNextMonth dt
    rw [nextDay_lastDay hAv (by dsimp only)]
    unfold firstOfNextMonth
    dsimp only
  rw [hB]
  have hFv : pyValid (firstOfNextMonth dt) := pyValid_firstOfNextMonth hv
  have hC : addDaysNat (firstOfNextMonth dt) n2m =
      { firstOfNextMonth dt with
          day := (firstOfNextMonth dt).day + (n2m : Int) } := by
    apply addDaysNat_within n2m _ hFv
    rw [firstOfNextMonth_day_one]
    omega
  rw [hC]
  have hday : ({ firstOfNextMonth dt with
      day := (firstOfNextMonth dt).day + (n2m : Int) } : PyDateTime).day = m0 := by
    dsimp only
    rw [firstOfNextMonth_day_one]
    omega
  refine ⟨hday, ?_, rfl, rfl⟩
  rw [hday]
  exact head?_mem hh

/-- Witness for the amended C10: overflowing from 2024-03-31 with
day-of-month set `{30}` lands on 2024-04-30, a set member (April has 30
days, so the proviso holds). -/
theorem c10_amended_witness :
    (⟨2024, 4, 30, 0, 0, 0⟩ : PyDateTime).day = 30 ∧
    (⟨2024, 4, 30, 0, 0, 0⟩ : PyDateTime).day ∈ jobDom30.cron_dom ∧
    (⟨2024, 4, 30, 0, 0, 0⟩ : PyDateTime).year =
      (firstOfNextMonth ⟨2024, 3, 31, 0, 0, 0⟩).year ∧
    (⟨2024, 4, 30, 0, 0, 0⟩ : PyDateTime).month =
      (firstOfNextMonth ⟨2024, 3, 31, 0, 0, 0⟩).month :=
  c10_amended_overflow_landing jobDom30 ⟨2024, 3, 31, 0, 0, 0⟩ 30
    ⟨2024, 4, 30, 0, 0, 0⟩ (by decide) (by decide) (by decide) (by decide) (by decide)

/-! ### Supporting lemmas: each pass only moves the instant forward -/

theorem some_bind {α β : Type} (a : α) (f : α → Option β) : (some a).bind f = f a := rfl

theorem mkDateTime_some {y mo d h mi s : Int} {dt : PyDateTime}
    (hm : mkDateTime y mo d h mi s = some dt) :
    dt = ⟨y, mo, d, h, mi, s⟩ ∧ pyValid dt := by
  unfold mkDateTime at hm
  split at hm
  · rename_i hval
    rw [Option.some.injEq] at hm
    subst hm
    exact ⟨rfl, hval⟩
  · exact absurd hm (by simp)

theorem dhLt_addHour {dt : PyDateTime} (h : pyValid dt) : dhLt dt (addHour dt) := by
  unfold pyValid at h
  unfold dhLt dateLt addHour nextDay
  split_ifs <;> dsimp only <;> omega

theorem pyValid_addHour {dt : PyDateTime} (h : pyValid dt) : pyValid (addHour dt) := by
  unfold addHour
  split_ifs with h1
  · unfold pyValid at h ⊢
    dsimp only
    omega
  · have h2 := pyValid_nextDay h
    unfold pyValid at h2 ⊢
    dsimp only
    omega

theorem minuteWrap_le {j : CronJob} {dt d : PyDateTime} (hv : pyValid dt)
    (h : minuteWrap j dt = some d) : pyLe dt d ∧ pyValid d := by
  unfold minuteWrap at h
  split at h
  · unfold replace_minute at h
    obtain ⟨hd, hval⟩ := mkDateTime_some h
    subst hd
    exact ⟨pyLt_le (pyLt_of_dhLt dt (addHour dt) _ (dhLt_addHour hv) rfl rfl rfl rfl),
      hval⟩
  · exact absurd h (by simp)

theorem set_next_minute_le {j : CronJob} {dt d : PyDateTime} (hv : pyValid dt)
    (h : set_next_minute j dt = some d) : pyLe dt d ∧ pyValid d := by
  unfold set_next_minute at h
  split at h
  · split at h
    · rw [Option.some.injEq] at h
      subst h
      exact ⟨pyLe_refl dt, hv⟩
    · exact minuteWrap_le hv h
  · exact minuteWrap_le hv h

theorem hourWrap_le {j : CronJob} {dt d : PyDateTime} (hv : pyValid dt)
    (h : hourWrap j dt = some d) : pyLe dt d ∧ pyValid d := by
  unfold hourWrap at h
  split at h
  · unfold replace_hour at h
    obtain ⟨hd, hval⟩ := mkDateTime_some h
    subst hd
    exact ⟨pyLt_le (pyLt_of_dateLt dt (nextDay dt) _ (dateLt_nextDay hv) rfl rfl rfl),
      hval⟩
  · exact absurd h (by simp)

theorem set_next_hour_le {j : CronJob} {dt d : PyDateTime} (hv : pyValid dt)
    (h : set_next_hour j dt = some d) : pyLe dt d ∧ pyValid d := by
  unfold set_next_hour at h
  split at h
  · rename_i nh hnh
    split at h
    · rw [Option.some.injEq] at h
      subst h
      exact ⟨pyLe_refl dt, hv⟩
    · rename_i hne
      split at h
      · rename_i d2 hrep
        rw [Option.some.injEq] at h
        subst h
        unfold replace_hour at hrep
        obtain ⟨hd, hval⟩ := mkDateTime_some hrep
        subst hd
        unfold first_common_value at hnh
        have hmem := mem_pyRange.mp (List.mem_of_find?_eq_some hnh)
        refine ⟨pyLt_le ?_, hval⟩
        unfold pyLt
        dsimp only
        omega
      · exact hourWrap_le hv h
  · exact hourWrap_le hv h

theorem dom_overflow_le {j : CronJob} {dt d : PyDateTime} (hv : pyValid dt)
    (hnn : ∀ v ∈ j.cron_dom, 0 ≤ v) (h : dom_overflow j dt = some d) :
    pyLe dt d ∧ pyValid d := by
  unfold dom_overflow at h
  split at h
  · rename_i m0 hm0
    rw [Option.some.injEq] at h
    subst h
    have h0 : 0 ≤ m0 := hnn m0 (head?_mem hm0)
    have hvr := hv
    unfold pyValid at hvr
    have hk : 0 ≤ daysInMonth dt.year dt.month - dt.day + m0 := by omega
    exact ⟨pyLe_addDays hv hk, pyValid_addDays hv hk⟩
  · exact absurd h (by simp)

theorem dom_candidate_le {j : CronJob} {dt d : PyDateTime} (hv : pyValid dt)
    (hnn : ∀ v ∈ j.cron_dom, 0 ≤ v) (h : dom_candidate j dt = some d) :
    pyLe dt d ∧ pyValid d := by
  unfold dom_candidate at h
  split at h
  · rename_i nd hnd
    split at h
    · rw [Option.some.injEq] at h
      subst h
      exact ⟨pyLe_refl dt, hv⟩
    · rename_i hne
      split at h
      · rename_i d2 hrep
        rw [Option.some.injEq] at h
        subst h
        unfold replace_day at hrep
        obtain ⟨hd, hval⟩ := mkDateTime_some hrep
        subst hd
        unfold first_common_value at hnd
        have hmem := mem_pyRange.mp (List.mem_of_find?_eq_some hnd)
        refine ⟨pyLt_le ?_, hval⟩
        unfold pyLt
        dsimp only
        omega
      · exact dom_overflow_le hv hnn h
  · exact dom_overflow_le hv hnn h

theorem pyWeekday_bounds (dt : PyDateTime) : 0 ≤ pyWeekday dt ∧ pyWeekday dt < 7 := by
  unfold pyWeekday
  constructor
  · exact Int.emod_nonneg _ (by norm_num)
  · exact Int.emod_lt_of_pos _ (by norm_num)

theorem dowWrap_le {j : CronJob} {dt d : PyDateTime} (hv : pyValid dt)
    (hnn : ∀ v ∈ j.cron_dow, 0 ≤ v) (h : dowWrap j dt = some d) :
    pyLe dt d ∧ pyValid d := by
  unfold dowWrap at h
  split at h
  · rename_i w0 hw0
    rw [Option.some.injEq] at h
    subst h
    have h0 : 0 ≤ w0 := hnn w0 (head?_mem hw0)
    have hwb := pyWeekday_bounds dt
    have hk : 0 ≤ 7 - pyWeekday dt + w0 := by omega
    exact ⟨pyLe_addDays hv hk, pyValid_addDays hv hk⟩
  · exact absurd h (by simp)

theorem dow_candidate_le {j : CronJob} {dt d : PyDateTime} (hv : pyValid dt)
    (hnn : ∀ v ∈ j.cron_dow, 0 ≤ v) (h : dow_candidate j dt = some d) :
    pyLe dt d ∧ pyValid d := by
  unfold dow_candidate at h
  split at h
  · rename_i nw hnw
    split at h
    · rename_i hpos
      rw [Option.some.injEq] at h
      subst h
      exact ⟨pyLe_addDays hv (by omega), pyValid_addDays hv (by omega)⟩
    · rw [Option.some.injEq] at h
      subst h
      exact ⟨pyLe_refl dt, hv⟩
  · exact dowWrap_le hv hnn h

theorem set_next_day_le {j : CronJob} {dt d : PyDateTime} (hv : pyValid dt)
    (hdom : ∀ v ∈ j.cron_dom, 0 ≤ v) (hdow : ∀ v ∈ j.cron_dow, 0 ≤ v)
    (h : set_next_day j dt = some d) : pyLe dt d ∧ pyValid d := by
  unfold set_next_day at h
  split at h
  · rename_i td tw hcd hcw
    have htd := dom_candidate_le hv hdom hcd
    have htw := dow_candidate_le hv hdow hcw
    split at h
    · split at h
      · rw [Option.some.injEq] at h
        subst h
        exact htd
      · exact absurd h (by simp)
    · split at h
      · rw [Option.some.injEq] at h
        subst h
        exact htw
      · exact absurd h (by simp)
  · exact absurd h (by simp)
  · exact absurd h (by simp)

theorem monthWrap_le {j : CronJob} {dt d : PyDateTime} (hv : pyValid dt)
    (h : monthWrap j dt = some d) : pyLe dt d ∧ pyValid d := by
  unfold monthWrap at h
  split at h
  · unfold replace_year_month at h
    obtain ⟨hd, hval⟩ := mkDateTime_some h
    subst hd
    refine ⟨pyLt_le ?_, hval⟩
    unfold pyLt
    dsimp only
    omega
  · exact absurd h (by simp)

theorem set_next_month_le {j : CronJob} {dt d : PyDateTime} (hv : pyValid dt)
    (h : set_next_month j dt = some d) : pyLe dt d ∧ pyValid d := by
  unfold set_next_month at h
  split at h
  · rename_i nm hnm
    split at h
    · rw [Option.some.injEq] at h
      subst h
      exact ⟨pyLe_refl dt, hv⟩
    · rename_i hne
      split at h
      · rename_i d2 hrep
        rw [Option.some.injEq] at h
        subst h
        unfold replace_month at hrep
        obtain ⟨hd, hval⟩ := mkDateTime_some hrep
        subst hd
        unfold first_common_value at hnm
        have hmem := mem_pyRange.mp (List.mem_of_find?_eq_some hnm)
        refine ⟨pyLt_le ?_, hval⟩
        unfold pyLt
        dsimp only
        omega
      · exact monthWrap_le hv h
  · exact monthWrap_le hv h

theorem pyValid_trunc {dt : PyDateTime} (h : pyValid dt) :
    pyValid (truncToMinute dt) := by
  unfold pyValid truncToMinute at *
  dsimp only
  omega

/-! ### Supporting lemmas: the parser only produces non-negative values -/

theorem contains_false_of_not_mem {c : Char} {l : List Char} (h : c ∉ l) :
    l.contains c = false := by
  cases hc : l.contains c
  · rfl
  · exact absurd (List.mem_of_elem_eq_true hc) h

theorem not_mem_of_contains_false {c : Char} {l : List Char}
    (h : l.contains c = false) : c ∉ l := by
  intro hm
  have h2 : l.elem c = true := List.elem_iff.mpr hm
  rw [show l.contains c = l.elem c from rfl, h2] at h
  cases h

theorem pyInt_nonneg {s : List Char} {v : Int} (h : pyInt s = some v)
    (hc : s.contains '-' = false) : 0 ≤ v := by
  unfold pyInt at h
  cases s with
  | nil => exact absurd h (by simp)
  | cons c rest =>
      have hcne : c ≠ '-' := by
        intro he
        subst he
        exact not_mem_of_contains_false hc (List.mem_cons_self _ _)
      dsimp only at h
      rw [if_neg hcne] at h
      by_cases hcp : c = '+'
      · rw [if_pos hcp] at h
        split at h
        · exact absurd h (by simp)
        · cases hdn : digitsValAux rest 0 with
          | none => rw [hdn] at h; exact absurd h (by simp)
          | some n =>
              rw [hdn] at h
              simp only [Option.map_some', Option.some.injEq] at h
              omega
      · rw [if_neg hcp] at h
        cases hdn : digitsValAux (c :: rest) 0 with
        | none => rw [hdn] at h; exact absurd h (by simp)
        | some n =>
            rw [hdn] at h
            simp only [Option.map_some', Option.some.injEq] at h
            omega

theorem splitOnChar_not_mem (sep : Char) :
    ∀ (l : List Char) (p : List Char), p ∈ splitOnChar sep l → sep ∉ p := by
  intro l
  induction l with
  | nil =>
      intro p hp
      unfold splitOnChar at hp
      simp at hp
      subst hp
      simp
  | cons c cs ih =>
      intro p hp
      unfold splitOnChar at hp
      cases hsp : splitOnChar sep cs with
      | nil =>
          rw [hsp] at hp
          simp at hp
          subst hp
          simp
      | cons p0 ps =>
          rw [hsp] at hp
          dsimp only at hp
          by_cases hc : c = sep
          · rw [if_pos hc] at hp
            rcases List.mem_cons.mp hp with h1 | h2
            · subst h1; simp
            · exact ih p (by rw [hsp]; exact h2)
          · rw [if_neg hc] at hp
            rcases List.mem_cons.mp hp with h1 | h2
            · subst h1
              intro hm
              rcases List.mem_cons.mp hm with h3 | h4
              · exact hc h3.symm
              · exact ih p0 (by rw [hsp]; exact List.mem_cons_self p0 ps) h4
            · exact ih p (by rw [hsp]; exact List.mem_cons_of_mem p0 h2)

theorem parsePiece_nonneg {p : List Char} {l : List Int}
    (h : parsePiece p = some l) : ∀ v ∈ l, 0 ≤ v := by
  unfold parsePiece at h
  split at h
  · split at h
    · rename_i sa sb tail hsplit
      split at h
      · rename_i va vb hva hvb
        rw [Option.some.injEq] at h
        subst h
        intro v hv
        have hva0 : 0 ≤ va := by
          apply pyInt_nonneg hva
          apply contains_false_of_not_mem
          exact splitOnChar_not_mem '-' p sa (by rw [hsplit]; exact List.mem_cons_self _ _)
        have := mem_pyRange.mp hv
        omega
      · exact absurd h (by simp)
    · exact absurd h (by simp)
  · rename_i hdash
    split at h
    · rename_i v0 hv0
      rw [Option.some.injEq] at h
      subst h
      intro v hv
      rw [List.mem_singleton] at hv
      subst hv
      apply pyInt_nonneg hv0
      cases hc : p.contains '-'
      · rfl
      · exact absurd hc hdash
    · rw [Option.some.injEq] at h
      subst h
      intro v hv
      exact absurd hv (by simp)

theorem joinPieces_nonneg : ∀ (ps : List (List Char)) (l : List Int),
    joinPieces ps = some l → ∀ v ∈ l, 0 ≤ v := by
  intro ps
  induction ps with
  | nil =>
      intro l h v hv
      unfold joinPieces at h
      rw [Option.some.injEq] at h
      subst h
      exact absurd hv (by simp)
  | cons p ps ih =>
      intro l h v hv
      unfold joinPieces at h
      split at h
      · rename_i l1 r hp hr
        rw [Option.some.injEq] at h
        subst h
        rcases List.mem_append.mp hv with h1 | h2
        · exact parsePiece_nonneg hp v h1
        · exact ih r hr v h2
      · exact absurd h (by simp)

theorem finish_parse_nonneg {s : List Char} {l : List Int}
    (h : finish_parse s = some l) : ∀ v ∈ l, 0 ≤ v := by
  unfold finish_parse at h
  split at h
  · exact joinPieces_nonneg _ _ h
  · exact parsePiece_nonneg h

theorem start_parse_nonneg {s : List Char} {mn mx : Int} {l : List Int}
    (hmn : 0 ≤ mn) (h : start_parse s mn mx = some l) : ∀ v ∈ l, 0 ≤ v := by
  unfold start_parse at h
  split at h
  · rw [Option.some.injEq] at h
    subst h
    intro v hv
    have := mem_pyRange.mp (mem_pySorted.mp hv)
    omega
  · split at h
    · split at h
      · rename_i freq hfreq
        split at h
        · rename_i l2 hsl
          rw [Option.some.injEq] at h
          subst h
          intro v hv
          have := mem_pyRange.mp (mem_pySliceStep hsl (mem_pySorted.mp hv))
          omega
        · exact absurd h (by simp)
      · exact absurd h (by simp)
    · split at h
      · rename_i l2 hf
        rw [Option.some.injEq] at h
        subst h
        intro v hv
        exact finish_parse_nonneg hf v (mem_pySorted.mp hv)
      · exact absurd h (by simp)

theorem parseJob_nonneg {raw : List Char} {j : CronJob} (h : parseJob raw = some j) :
    (∀ v ∈ j.cron_dom, 0 ≤ v) ∧ (∀ v ∈ j.cron_dow, 0 ≤ v) := by
  unfold parseJob at h
  split at h
  · split at h
    · rename_i months mins hours doms dows hmo hmi hho hdo hdw
      rw [Option.some.injEq] at h
      subst h
      constructor
      · intro v hv
        exact start_parse_nonneg (by norm_num) hdo v hv
      · intro v hv
        exact start_parse_nonneg (by norm_num) hdw v hv
    · exact absurd h (by simp)
  · exact absurd h (by simp)

/-! ### Claim theorem: the returned instant never precedes the reference (C7) -/

/-- C7 (amended): for every parsed job and every reference instant, any
instant `next_run` actually returns is greater than or equal to the
reference truncated to minute granularity (the seconds of the reference are
discarded before the search begins); `next_run` may instead signal an error
(see the counterexample refuting the original claim's unconditional
"returns").  The `start_dt=None` default, which substitutes the wall-clock
`datetime.now()`, is outside this model. -/
theorem c7_amended_result_ge_reference (raw : List Char) (j : CronJob)
    (dt d : PyDateTime) (hj : parseJob raw = some j) (hv : pyValid dt)
    (h : next_run j dt = some d) : pyLe (truncToMinute dt) d := by
  obtain ⟨hdom, hdow⟩ := parseJob_nonneg hj
  unfold next_run create_date at h
  cases h1 : set_next_minute j (truncToMinute dt) with
  | none => rw [h1] at h; exact absurd h (by simp)
  | some d1 =>
      rw [h1, some_bind] at h
      obtain ⟨hle1, hv1⟩ := set_next_minute_le (pyValid_trunc hv) h1
      cases h2 : set_next_hour j d1 with
      | none => rw [h2] at h; exact absurd h (by simp)
      | some d2 =>
          rw [h2, some_bind] at h
          obtain ⟨hle2, hv2⟩ := set_next_hour_le hv1 h2
          cases h3 : set_next_day j d2 with
          | none => rw [h3] at h; exact absurd h (by simp)
          | some d3 =>
              rw [h3, some_bind] at h
              obtain ⟨hle3, hv3⟩ := set_next_day_le hv2 hdom hdow h3
              obtain ⟨hle4, hv4⟩ := set_next_month_le hv3 h
              exact pyLe_trans _ _ _ hle1
                (pyLe_trans _ _ _ hle2 (pyLe_trans _ _ _ hle3 hle4))

/-- Witness for the amended C7: the weekly job evaluated at a reference with
a second component (2024-03-01 00:00:30) returns 2024-03-04 02:30, which is
at or after the truncated reference 2024-03-01 00:00. -/
theorem c7_amended_witness :
    pyLe (truncToMinute ⟨2024, 3, 1, 0, 0, 30⟩) ⟨2024, 3, 4, 2, 30, 0⟩ :=
  c7_amended_result_ge_reference rawWeekly jobWeekly ⟨2024, 3, 1, 0, 0, 30⟩
    ⟨2024, 3, 4, 2, 30, 0⟩ (by decide) (by decide) (by decide)
